import Mathlib

/-!
Shallow embedding of the ANPR congestion dashboard (`api/app.py`).

Python strings are modelled as lists of Unicode codepoints (`List Nat`);
the string operations used by the code (`str.upper`, `str.replace` with a
plain pattern, `str.strip`) are embedded over the ASCII range, which covers
the checkpoint names, plates and filenames the program handles.
Timestamps are modelled as integer seconds since the epoch; pandas
`Timestamp.floor("15min")` is real flooring, `dt.date` is flooring to the
86400-second day.  Fractional travel minutes are modelled as rationals.
-/

/-- A Python string: its list of codepoints. -/
abbrev Str := List Nat

/-- Embed a Lean string literal as a codepoint list. -/
def pstr (s : String) : Str := s.toList.map Char.toNat

/-- `str.upper` on one ASCII codepoint. -/
def pyUpper (c : Nat) : Nat := if 97 ≤ c ∧ c ≤ 122 then c - 32 else c

/-- `str.upper` over a whole string. -/
def upperStr (s : Str) : Str := s.map pyUpper

/-- Whitespace codepoints stripped by `str.strip` (ASCII range). -/
def isSpaceB (c : Nat) : Bool := c == 32 || c == 9 || c == 10 || c == 13 || c == 11 || c == 12

/-- `str.strip`: drop the maximal whitespace prefix and suffix. -/
def strip (s : Str) : Str :=
  (List.dropWhile isSpaceB ((List.dropWhile isSpaceB s).reverse)).reverse

/-- Auxiliary scanner for `removeAll`: while `skip > 0` we are inside an
already-matched occurrence and emit nothing; at `skip = 0` we test for a
match at the current position, exactly like Python's left-to-right
non-overlapping `str.replace(pat, "")`. -/
def removeAllAux (pat : Str) : Nat → Str → Str
  | _, [] => []
  | k + 1, _ :: rest => removeAllAux pat k rest
  | 0, c :: rest =>
    if pat.isPrefixOf (c :: rest) then removeAllAux pat (pat.length - 1) rest
    else c :: removeAllAux pat 0 rest

/-- Python `s.replace(pat, "")`: delete every non-overlapping occurrence of
`pat`, scanning left to right. -/
def removeAll (pat : Str) (s : Str) : Str := removeAllAux pat 0 s

/-- Does `s` contain `pat` as a contiguous substring? -/
def containsSub (pat : Str) : Str → Bool
  | [] => pat.isEmpty
  | c :: rest => pat.isPrefixOf (c :: rest) || containsSub pat rest

-- Configuration constants of `api/app.py`.

/-- `REQUIRED_COLUMNS = ["Device Name", "License Plate", "Passing Time"]`. -/
def REQUIRED_COLUMNS : List Str := [pstr "Device Name", pstr "License Plate", pstr "Passing Time"]

/-- The `ROUTES` table: (start checkpoint, end checkpoint, google reference minutes). -/
def ROUTES : List (Str × Str × Nat) :=
  [(pstr "SEITHUNGANALLUR", pstr "ARUMUGANERI", 50),
   (pstr "KURUKKUSALAI", pstr "ARUMUGANERI", 70)]

/-- `MAX_TRAVEL_TIME_MINS = 4 * 60  # 4 hours`, written as the literal 240
so that the kernel can evaluate comparisons against it. -/
def MAX_TRAVEL_TIME_MINS : ℚ := 240

/-- The site-survey token stripped from device names: `" C.POST"`. -/
def SUFFIX_TOKEN : Str := pstr " C.POST"

-- Sanity checks of the string model (concrete evaluation).

example : upperStr (pstr "aBc z") = pstr "ABC Z" := by decide

example : removeAll SUFFIX_TOKEN (pstr "FOO C.POST") = pstr "FOO" := by decide

example : strip (pstr "  FOO  ") = pstr "FOO" := by decide

example : removeAll SUFFIX_TOKEN (pstr "X C.PO C.POSTST") = pstr "X C.POST" := by decide

example : removeAll SUFFIX_TOKEN (pstr "X C.POST") = pstr "X" := by decide

-- Data model: raw rows and normalized records.

/-- A pandas cell of the `Passing Time` column: a raw string, an already
parsed datetime (seconds since the epoch), or a null (`NaT`/`NaN`). -/
inductive TimeCell where
  | str (s : Str)
  | dt (t : Int)
  | null
deriving DecidableEq

/-- One raw spreadsheet row, restricted to the three required columns.
A `none` field models a null cell (pandas `NaN`). -/
structure RawRecord where
  dev : Option Str
  plate : Option Str
  time : TimeCell
deriving DecidableEq

/-- A fully normalized detection record (all required fields non-null). -/
structure Record where
  dev : Str
  plate : Str
  time : Int
deriving DecidableEq

/-- `df["Device Name"].str.upper().str.replace(" C.POST", "", regex=False).str.strip()`
on one cell. -/
def normalizeName (s : Str) : Str := strip (removeAll SUFFIX_TOKEN (upperStr s))

/-- `df["License Plate"].str.upper().str.strip()` on one cell. -/
def normalizePlate (s : Str) : Str := strip (upperStr s)

/-- `pd.to_datetime(-, errors='coerce')` on one cell, parameterized by the
lenient string parser `parse` (whose internals no claim depends on): an
unparsable string becomes null, an already parsed datetime is unchanged. -/
def pdToDatetime (parse : Str → Option Int) : TimeCell → TimeCell
  | .str s => match parse s with
    | some t => .dt t
    | none => .null
  | .dt t => .dt t
  | .null => .null

/-- The column transforms of `process_data` lines 149-151 applied to one row
(string columns skip null cells, as pandas `.str` accessors do). -/
def normalizeRow (parse : Str → Option Int) (r : RawRecord) : RawRecord :=
  { dev := r.dev.map normalizeName
    plate := r.plate.map normalizePlate
    time := pdToDatetime parse r.time }

/-- `df.dropna(subset=REQUIRED_COLUMNS)` on one row: keep it only if all
three required fields are non-null. -/
def toRecord (r : RawRecord) : Option Record :=
  match r.dev, r.plate, r.time with
  | some d, some p, .dt t => some ⟨d, p, t⟩
  | _, _, _ => none

/-- Lines 149-152: normalize every row, then drop rows with nulls in the
required columns. -/
def normalizeDf (parse : Str → Option Int) (rows : List RawRecord) : List Record :=
  (rows.map (normalizeRow parse)).filterMap toRecord

-- Time arithmetic.

/-- `dt.floor("15min")` on a timestamp in seconds. -/
def floor15 (t : Int) : Int := 900 * Int.fdiv t 900

/-- `dt.date` on a timestamp in seconds: its calendar day number. -/
def dateOf (t : Int) : Int := Int.fdiv t 86400

/-- Lines 154-156: if a date was selected, keep only the rows whose passing
time falls on that calendar day. -/
def applyDateFilter (d : Option Int) (df : List Record) : List Record :=
  match d with
  | none => df
  | some day => df.filter (fun r => decide (dateOf r.time = day))

-- Journey reconciliation (lines 164-171).

/-- `df[df["Device Name"] == cp]`: the rows detected at checkpoint `cp`. -/
def rowsAt (df : List Record) (cp : Str) : List Record :=
  df.filter (fun r => decide (r.dev = cp))

/-- `pd.merge(df_start, df_end, on="License Plate")`: the full equi-join on
plate, every start row paired with every end row sharing its plate. -/
def equiJoin (starts ends : List Record) : List (Record × Record) :=
  starts.flatMap (fun s => (ends.filter (fun e => decide (e.plate = s.plate))).map (fun e => (s, e)))

/-- `(Passing Time_end - Passing Time_start).dt.total_seconds() / 60`: the
exact rational number of minutes between the two detections.  Written with
`Rat.divInt` (integer division into ℚ) so that the kernel can evaluate it;
the lemma `travelMins_eq_div` below shows it is the plain quotient by 60. -/
def travelMins (p : Record × Record) : ℚ := Rat.divInt (p.2.time - p.1.time) 60

/-- Lines 164-171 for one route: equi-join the start and end rows on plate,
then keep the pairs with `0 < travel minutes ≤ MAX_TRAVEL_TIME_MINS`. -/
def journeysForRoute (df : List Record) (rt : Str × Str × Nat) : List (Record × Record) :=
  (equiJoin (rowsAt df rt.1) (rowsAt df rt.2.1)).filter
    (fun p => decide (0 < travelMins p) && decide (travelMins p ≤ MAX_TRAVEL_TIME_MINS))

-- Volume aggregation (lines 199-202).

/-- The start-checkpoint detections falling in the 15-minute bucket `b`. -/
def inBucket (l : List Record) (b : Int) : List Record :=
  l.filter (fun r => decide (floor15 r.time = b))

/-- `groupby('Time Interval').agg(vehicle_count=('License Plate', 'nunique'))`
evaluated at one bucket: the number of distinct plates among all detections
at checkpoint `cp` whose passing time floors to `b`. -/
def volumeCount (df : List Record) (cp : Str) (b : Int) : Nat :=
  ((inBucket (rowsAt df cp) b).map (fun r => r.plate)).toFinset.card

example :
    volumeCount
      [⟨pstr "A", pstr "P1", 600⟩, ⟨pstr "A", pstr "P2", 700⟩, ⟨pstr "A", pstr "P1", 800⟩]
      (pstr "A") 0 = 2 := by decide

-- File loading (`get_all_files_for_period`, `download_file_from_gdrive`,
-- and the per-file loop of `process_data`, lines 118-146).

/-- A transport/API failure of the Drive client (`HttpError`). -/
structure HttpErr where
  code : Nat
deriving DecidableEq

/-- What downloading and reading one catalog entry yields: the download
failed (`download_file_from_gdrive` returned `None`), the bytes could not be
parsed (`pd.read_excel` raised), or a table with its column names and rows. -/
inductive FetchResult where
  | failed
  | unreadable
  | ok (cols : List Str) (rows : List RawRecord)
deriving DecidableEq

/-- One catalog entry together with what fetching it yields. -/
structure GFile where
  name : Str
  content : FetchResult
deriving DecidableEq

/-- `get_all_files_for_period` (lines 67-85): on a transport error the
exception is caught and the empty list is returned; otherwise the listed
files are returned as-is. `resp` stands for the paginated API response. -/
def getAllFilesForPeriod (resp : Except HttpErr (List GFile)) : List GFile :=
  match resp with
  | .ok fs => fs
  | .error _ => []

/-- `[col for col in REQUIRED_COLUMNS if col not in df_temp.columns]`. -/
def missingColumns (cols : List Str) : List Str :=
  REQUIRED_COLUMNS.filter (fun c => decide (c ∉ cols))

/-- Keep-first exact-duplicate removal, the semantics of pandas
`drop_duplicates()`: a row is kept iff it was not already seen. -/
def ddAux [DecidableEq α] (seen : List α) : List α → List α
  | [] => []
  | a :: l => if a ∈ seen then ddAux seen l else a :: ddAux (a :: seen) l

/-- `drop_duplicates()` over a row list. -/
def dropDuplicates [DecidableEq α] (l : List α) : List α := ddAux [] l

/-- Line 142: `pd.concat(all_dfs, ignore_index=True).drop_duplicates()`. -/
def mergeFiles (dfs : List (List RawRecord)) : List RawRecord :=
  dropDuplicates dfs.flatten

/-- The outcome of the file-loading phase of `process_data`. -/
inductive LoadResult where
  | noFiles
  | genericError
  | schemaError (fname : Str) (missing found : List Str)
  | noneReadable
  | ok (rows : List RawRecord)
deriving DecidableEq

/-- The `for file_info in files_to_process` loop (lines 126-142), with `acc`
the tables collected in `all_dfs` so far: a failed download is skipped, an
unreadable file raises into the outer handler (generic error), a table
missing required columns aborts with a schema error naming the file, the
missing columns and the found columns; at the end, no collected table means
"files were found, but none could be read", else the tables are concatenated
and deduplicated. -/
def loadLoop : List GFile → List (List RawRecord) → LoadResult
  | [], acc => if acc.isEmpty then .noneReadable else .ok (mergeFiles acc)
  | f :: rest, acc =>
    match f.content with
    | .failed => loadLoop rest acc
    | .unreadable => .genericError
    | .ok cols rows =>
      if missingColumns cols = [] then loadLoop rest (acc ++ [rows])
      else .schemaError f.name (missingColumns cols) cols

/-- Lines 118-142: an empty catalog result short-circuits to the
"no data files found" outcome, otherwise the download loop runs. -/
def processFiles (files : List GFile) : LoadResult :=
  if files.isEmpty then .noFiles else loadLoop files []

/-- The per-route chart data built from a loaded record set (lines 158-212):
per route, the retained journeys and the volume series. Any non-`ok` load
outcome, and an empty record set after filtering, produce zero charts. -/
def chartsFromLoad (parse : Str → Option Int) (d : Option Int) (r : LoadResult) :
    List (List (Record × Record) × List (Int × Nat)) :=
  match r with
  | .ok rows =>
    let df := applyDateFilter d (normalizeDf parse rows)
    if df.isEmpty then []
    else ROUTES.map (fun rt =>
      (journeysForRoute df rt,
       (dropDuplicates ((rowsAt df rt.1).map (fun r => floor15 r.time))).map
         (fun b => (b, volumeCount df rt.1 b))))
  | _ => []

-- File selection policy, numeric-suffix variant.

/-- Modelled from the spec: the digit test for the numeric-suffix parser
(the "latest-by-day, numeric-suffix priority" selection variant of spec
section 4.2 is absent from `src/`, which holds only the union-for-day
variant). -/
def isDigitB (c : Nat) : Bool := decide (48 ≤ c) && decide (c ≤ 57)

/-- Modelled from the spec: the decimal value of a digit string. -/
def natOfDigits (d : Str) : Nat := d.foldl (fun acc c => 10 * acc + (c - 48)) 0

/-- Modelled from the spec: the segment of a filename after its last
underscore (the whole name when it has no underscore). -/
def afterLastUnderscore (s : Str) : Str :=
  (List.takeWhile (fun c => c != 95) s.reverse).reverse

/-- Modelled from the spec: drop the extension, i.e. everything from the
last dot on (identity when there is no dot). -/
def stripExt (s : Str) : Str :=
  match List.dropWhile (fun c => c != 46) s.reverse with
  | [] => s
  | _ :: rest => rest.reverse

/-- Modelled from the spec: parse the trailing integer of a filename — the
text after the last underscore and before the extension — or `none` when
that text is empty or not all digits. -/
def parseTrailingNat (s : Str) : Option Nat :=
  let d := stripExt (afterLastUnderscore s)
  if d.isEmpty || !(d.all isDigitB) then none else some (natOfDigits d)

/-- Modelled from the spec: a filename's priority, with the unparsable case
a sentinel below every valid number. -/
def fileRank (s : Str) : Int :=
  match parseTrailingNat s with
  | none => -1
  | some n => (n : Int)

/-- Modelled from the spec: keep the higher-ranked of two filenames. -/
def pickBetter (b g : Str) : Str := if fileRank b < fileRank g then g else b

/-- Modelled from the spec: select the candidate filename with the highest
parsed trailing number; if the top-ranked name has no parseable trailing
number, the day has no eligible file. -/
def selectHighest (files : List Str) : Option Str :=
  match files with
  | [] => none
  | f :: rest =>
    let best := rest.foldl pickBetter f
    if (parseTrailingNat best).isSome then some best else none

example : parseTrailingNat (pstr "anpr_data_10.xlsx") = some 10 := by decide

example :
    selectHighest [pstr "anpr_data_3.xlsx", pstr "anpr_data_10.xlsx", pstr "anpr_data_2.xlsx"]
      = some (pstr "anpr_data_10.xlsx") := by decide

example : selectHighest [pstr "anpr_data.xlsx"] = none := by decide

-- Auxiliary executable predicates and counters used by the theorems.

/-- Occurrence count of an element in a list (the multiplicity a row has in
a dataframe). -/
def countOcc [DecidableEq α] (a : α) : List α → Nat
  | [] => 0
  | x :: l => (if x = a then 1 else 0) + countOcc a l

/-- A file the download loop passes through without aborting: its download
failed (it is skipped), or it parsed into a table with all required columns. -/
def passesOrSkippedB (g : GFile) : Bool :=
  match g.content with
  | .failed => true
  | .unreadable => false
  | .ok cols _ => decide (missingColumns cols = [])

/-- The checkpoint-name field of a row contains no `" C.POST"` token
(vacuously true for a null cell).  Applied to an already-normalized row this
says that deleting the token's occurrences did not splice together a new
occurrence. -/
def devSuffixFree (r : RawRecord) : Bool :=
  match r.dev with
  | none => true
  | some s => !(containsSub SUFFIX_TOKEN s)

-- Basic facts about travel time and the equi-join.

theorem travelMins_eq_div (p : Record × Record) :
    travelMins p = ((p.2.time - p.1.time : Int) : ℚ) / 60 := by
  rw [travelMins, Rat.divInt_eq_div]
  norm_num

theorem mem_equiJoin {S E : List Record} {s e : Record} :
    (s, e) ∈ equiJoin S E ↔ s ∈ S ∧ e ∈ E ∧ e.plate = s.plate := by
  constructor
  · intro h
    rcases List.mem_flatMap.1 h with ⟨a, haS, hmem⟩
    rcases List.mem_map.1 hmem with ⟨b, hbf, heq⟩
    rcases List.mem_filter.1 hbf with ⟨hbE, hpl⟩
    injection heq with h1 h2
    subst h1; subst h2
    exact ⟨haS, hbE, of_decide_eq_true hpl⟩
  · rintro ⟨hs, he, hpl⟩
    exact List.mem_flatMap.2
      ⟨s, hs, List.mem_map.2 ⟨e, List.mem_filter.2 ⟨he, decide_eq_true hpl⟩, rfl⟩⟩

/-- C1: a start/end pair with a shared plate on a route is counted as a
journey iff its elapsed travel time `t` in minutes satisfies
`0 < t ≤ MAX_TRAVEL_TIME_MINS` (240); in particular, two records of the same
plate with arrival time at or before departure time never form a journey on
any route. -/
theorem journey_iff_travel_time_in_bounds :
    (∀ (df : List Record) (rt : Str × Str × Nat) (s e : Record),
        s ∈ rowsAt df rt.1 → e ∈ rowsAt df rt.2.1 → e.plate = s.plate →
        ((s, e) ∈ journeysForRoute df rt ↔
          0 < travelMins (s, e) ∧ travelMins (s, e) ≤ MAX_TRAVEL_TIME_MINS))
    ∧ (∀ (df : List Record) (rt : Str × Str × Nat) (s e : Record),
        e.time ≤ s.time → (s, e) ∉ journeysForRoute df rt) := by
  constructor
  · intro df rt s e hs he hpl
    unfold journeysForRoute
    rw [List.mem_filter]
    constructor
    · rintro ⟨-, hcond⟩
      simp only [Bool.and_eq_true, decide_eq_true_eq] at hcond
      exact hcond
    · intro hcond
      refine ⟨mem_equiJoin.2 ⟨hs, he, hpl⟩, ?_⟩
      simp only [Bool.and_eq_true, decide_eq_true_eq]
      exact hcond
  · intro df rt s e hle hmem
    unfold journeysForRoute at hmem
    rw [List.mem_filter] at hmem
    obtain ⟨-, hcond⟩ := hmem
    simp only [Bool.and_eq_true, decide_eq_true_eq] at hcond
    have hpos := hcond.1
    have h60 : (0 : ℚ) < 60 := by norm_num
    rw [travelMins_eq_div, lt_div_iff₀ h60, zero_mul] at hpos
    have hint : (0 : Int) < e.time - s.time := by exact_mod_cast hpos
    omega

/-- C1 witness: on the SEITHUNGANALLUR → ARUMUGANERI route, a pair 40
minutes apart is a journey, and the reversed pair (arrival before
departure) is not. -/
theorem journey_iff_travel_time_in_bounds_witness :
    ((⟨pstr "SEITHUNGANALLUR", pstr "ABC123", 36000⟩,
      ⟨pstr "ARUMUGANERI", pstr "ABC123", 38400⟩) : Record × Record)
        ∈ journeysForRoute
            [⟨pstr "SEITHUNGANALLUR", pstr "ABC123", 36000⟩,
             ⟨pstr "ARUMUGANERI", pstr "ABC123", 38400⟩]
            (pstr "SEITHUNGANALLUR", pstr "ARUMUGANERI", 50)
    ∧ ((⟨pstr "ARUMUGANERI", pstr "ABC123", 38400⟩,
        ⟨pstr "SEITHUNGANALLUR", pstr "ABC123", 36000⟩) : Record × Record)
        ∉ journeysForRoute
            [⟨pstr "SEITHUNGANALLUR", pstr "ABC123", 36000⟩,
             ⟨pstr "ARUMUGANERI", pstr "ABC123", 38400⟩]
            (pstr "ARUMUGANERI", pstr "SEITHUNGANALLUR", 50) :=
  ⟨(journey_iff_travel_time_in_bounds.1 _ _ _ _ (by decide) (by decide) (by decide)).mpr
      (by decide),
   journey_iff_travel_time_in_bounds.2 _ _ _ _ (by decide)⟩

-- Multiplicity lemmas for the equi-join (C2).

theorem countOcc_append [DecidableEq α] (a : α) (l₁ l₂ : List α) :
    countOcc a (l₁ ++ l₂) = countOcc a l₁ + countOcc a l₂ := by
  induction l₁ with
  | nil => simp [countOcc]
  | cons x l ih =>
    have hc : (x :: l) ++ l₂ = x :: (l ++ l₂) := rfl
    rw [hc]
    simp only [countOcc]
    rw [ih]
    omega

theorem countOcc_map_pair (a s e : Record) (l : List Record) :
    countOcc (s, e) (l.map (fun b => (a, b))) = if a = s then countOcc e l else 0 := by
  induction l with
  | nil => by_cases h : a = s <;> simp [countOcc, h]
  | cons b l ih =>
    simp only [List.map_cons, countOcc, ih, Prod.mk.injEq]
    by_cases has : a = s <;> by_cases hbe : b = e <;> simp [has, hbe]

theorem countOcc_filter_plate (p : Str) (e : Record) (l : List Record) :
    countOcc e (l.filter (fun b => decide (b.plate = p))) =
      if e.plate = p then countOcc e l else 0 := by
  induction l with
  | nil => by_cases h : e.plate = p <;> simp [countOcc, h]
  | cons b l ih =>
    rw [List.filter_cons]
    by_cases hb : b.plate = p
    · rw [if_pos (decide_eq_true hb)]
      simp only [countOcc, ih]
      by_cases hbe : b = e
      · subst hbe
        simp [hb]
      · by_cases hep : e.plate = p <;> simp [hbe, hep]
    · rw [if_neg (by simpa using hb)]
      rw [ih]
      by_cases hep : e.plate = p
      · have hbe : ¬ b = e := fun h => hb (by rw [h]; exact hep)
        simp [hep, countOcc, hbe]
      · simp [hep]

/-- C2: journey formation per route is the full equi-join on plate: the
multiplicity of a pair `(s, e)` among the candidate journeys is the product
of the multiplicities of `s` among the start rows and of `e` among the end
rows when the plates agree, and zero otherwise; in particular a plate
appearing twice at the start checkpoint and once at the end yields exactly
two candidate journeys. -/
theorem equiJoin_count :
    (∀ (S E : List Record) (s e : Record),
        countOcc (s, e) (equiJoin S E) =
          if s.plate = e.plate then countOcc s S * countOcc e E else 0)
    ∧ (equiJoin
        [⟨pstr "A", pstr "P7", 0⟩, ⟨pstr "A", pstr "P7", 100⟩]
        [⟨pstr "B", pstr "P7", 50⟩]).length = 2 := by
  constructor
  · intro S E s e
    induction S with
    | nil => by_cases h : s.plate = e.plate <;> simp [equiJoin, countOcc, h]
    | cons a S ih =>
      have hstep : equiJoin (a :: S) E =
          ((E.filter (fun b => decide (b.plate = a.plate))).map (fun b => (a, b)))
            ++ equiJoin S E := by
        simp [equiJoin]
      rw [hstep, countOcc_append, countOcc_map_pair, countOcc_filter_plate, ih]
      by_cases has : a = s
      · subst has
        rw [if_pos rfl]
        by_cases hpl : a.plate = e.plate
        · rw [if_pos hpl.symm, if_pos hpl, if_pos hpl]
          simp only [countOcc, eq_self_iff_true, if_true]
          ring
        · rw [if_neg (fun h => hpl h.symm), if_neg hpl, if_neg hpl]
      · rw [if_neg has]
        by_cases hpl : s.plate = e.plate
        · rw [if_pos hpl, if_pos hpl]
          simp only [countOcc, if_neg has]
          ring
        · rw [if_neg hpl, if_neg hpl]
  · decide

/-- C4: a transport/API error from the file-listing call is absorbed into an
empty result at the lookup boundary, and the caller then takes the
"no data files found" path, producing zero charts, instead of propagating a
failure. -/
theorem listing_error_yields_no_files :
    ∀ (parse : Str → Option Int) (d : Option Int) (e : HttpErr),
      getAllFilesForPeriod (.error e) = []
      ∧ processFiles (getAllFilesForPeriod (.error e)) = .noFiles
      ∧ chartsFromLoad parse d (processFiles (getAllFilesForPeriod (.error e))) = [] := by
  intro parse d e
  exact ⟨rfl, rfl, rfl⟩

-- Deduplication lemmas (C6).

theorem mem_ddAux [DecidableEq α] (x : α) :
    ∀ (l seen : List α), x ∈ ddAux seen l ↔ x ∈ l ∧ x ∉ seen := by
  intro l
  induction l with
  | nil => intro seen; simp [ddAux]
  | cons a l ih =>
    intro seen
    by_cases ha : a ∈ seen
    · rw [ddAux, if_pos ha, ih]
      constructor
      · rintro ⟨hx, hns⟩
        exact ⟨List.mem_cons_of_mem a hx, hns⟩
      · rintro ⟨hx, hns⟩
        rcases List.mem_cons.1 hx with h | h
        · exact absurd (h ▸ ha) hns
        · exact ⟨h, hns⟩
    · rw [ddAux, if_neg ha]
      constructor
      · intro hx
        rcases List.mem_cons.1 hx with h | h
        · exact ⟨h ▸ List.mem_cons_self a l, h ▸ ha⟩
        · rcases (ih (a :: seen)).1 h with ⟨hl, hns⟩
          exact ⟨List.mem_cons_of_mem a hl, fun hs => hns (List.mem_cons_of_mem a hs)⟩
      · rintro ⟨hx, hns⟩
        rcases List.mem_cons.1 hx with h | h
        · exact h ▸ List.mem_cons_self a _
        · by_cases hxa : x = a
          · exact hxa ▸ List.mem_cons_self a _
          · exact List.mem_cons_of_mem a
              ((ih (a :: seen)).2 ⟨h, fun hs => by
                rcases List.mem_cons.1 hs with h' | h'
                · exact hxa h'
                · exact hns h'⟩)

theorem countOcc_eq_zero_of_not_mem [DecidableEq α] {x : α} :
    ∀ {l : List α}, x ∉ l → countOcc x l = 0 := by
  intro l
  induction l with
  | nil => intro _; rfl
  | cons a l ih =>
    intro h
    have hax : ¬ a = x := fun hc => h (hc ▸ List.mem_cons_self a l)
    simp only [countOcc, if_neg hax, ih (fun hc => h (List.mem_cons_of_mem a hc))]

theorem countOcc_ddAux_le_one [DecidableEq α] (x : α) :
    ∀ (l seen : List α), countOcc x (ddAux seen l) ≤ 1 := by
  intro l
  induction l with
  | nil => intro seen; simp [ddAux, countOcc]
  | cons a l ih =>
    intro seen
    by_cases ha : a ∈ seen
    · rw [ddAux, if_pos ha]
      exact ih seen
    · rw [ddAux, if_neg ha]
      by_cases hax : a = x
      · subst hax
        have : a ∉ ddAux (a :: seen) l := fun hc =>
          ((mem_ddAux a l (a :: seen)).1 hc).2 (List.mem_cons_self a seen)
        simp [countOcc, countOcc_eq_zero_of_not_mem this]
      · simp only [countOcc, if_neg hax]
        simpa using ih (a :: seen)

theorem countOcc_pos_of_mem [DecidableEq α] {x : α} :
    ∀ {l : List α}, x ∈ l → 1 ≤ countOcc x l := by
  intro l
  induction l with
  | nil => intro h; cases h
  | cons a l ih =>
    intro h
    rcases List.mem_cons.1 h with h' | h'
    · simp only [countOcc, if_pos h'.symm]
      omega
    · have := ih h'
      simp only [countOcc]
      omega

/-- C6: after concatenating the rows of the selected files, exact-duplicate
rows are removed: a fully identical row shared by two files occurs exactly
once in the merged record set. -/
theorem merge_dedup_exactly_once :
    ∀ (f1 f2 : List RawRecord) (r : RawRecord),
      r ∈ f1 → r ∈ f2 → countOcc r (mergeFiles [f1, f2]) = 1 := by
  intro f1 f2 r h1 _h2
  have hmem : r ∈ mergeFiles [f1, f2] := by
    apply (mem_ddAux r ([f1, f2].flatten) []).2
    refine ⟨?_, by simp⟩
    simp only [List.flatten, List.append_nil]
    exact List.mem_append.2 (Or.inl h1)
  have hle := countOcc_ddAux_le_one r ([f1, f2].flatten) []
  have hge := countOcc_pos_of_mem hmem
  unfold mergeFiles dropDuplicates at hge ⊢
  omega

/-- C6 witness: a row present in both of two files appears exactly once in
the merged set. -/
theorem merge_dedup_exactly_once_witness :
    countOcc (⟨some (pstr "A"), some (pstr "P1"), .dt 100⟩ : RawRecord)
      (mergeFiles
        [[⟨some (pstr "A"), some (pstr "P1"), .dt 100⟩,
          ⟨some (pstr "A"), some (pstr "P2"), .dt 200⟩],
         [⟨some (pstr "A"), some (pstr "P1"), .dt 100⟩]]) = 1 :=
  merge_dedup_exactly_once _ _ _ (by decide) (by decide)

-- The download loop (C3 and C10).

theorem loadLoop_prefix_skip :
    ∀ (pre rest : List GFile) (acc : List (List RawRecord)),
      (∀ g ∈ pre, passesOrSkippedB g = true) →
      ∃ acc', loadLoop (pre ++ rest) acc = loadLoop rest acc' := by
  intro pre
  induction pre with
  | nil => intro rest acc _; exact ⟨acc, rfl⟩
  | cons g pre ih =>
    intro rest acc hpre
    have hg := hpre g (List.mem_cons_self g pre)
    have hpre' : ∀ g' ∈ pre, passesOrSkippedB g' = true :=
      fun g' hmem => hpre g' (List.mem_cons_of_mem g hmem)
    cases g with
    | mk name content =>
      cases content with
      | failed =>
        have hstep : loadLoop ((⟨name, .failed⟩ : GFile) :: (pre ++ rest)) acc
            = loadLoop (pre ++ rest) acc := rfl
        rw [List.cons_append, hstep]
        exact ih rest acc hpre'
      | unreadable => simp [passesOrSkippedB] at hg
      | ok cols rows =>
        have hmiss : missingColumns cols = [] := by
          simpa [passesOrSkippedB] using hg
        have hstep : loadLoop ((⟨name, .ok cols rows⟩ : GFile) :: (pre ++ rest)) acc
            = loadLoop (pre ++ rest) (acc ++ [rows]) := by
          simp only [loadLoop]
          rw [if_pos hmiss]
        rw [List.cons_append, hstep]
        exact ih rest (acc ++ [rows]) hpre'

/-- C3: if a selected file downloads into a table missing some required
column, and every file before it was either skipped (failed download) or
valid, processing aborts with a schema error naming that file, the missing
columns and the columns actually found, and zero charts are produced. -/
theorem schema_error_short_circuits :
    ∀ (parse : Str → Option Int) (d : Option Int) (pre rest : List GFile) (f : GFile)
      (cols : List Str) (rows : List RawRecord),
      (∀ g ∈ pre, passesOrSkippedB g = true) →
      f.content = .ok cols rows →
      missingColumns cols ≠ [] →
      processFiles (pre ++ f :: rest) = .schemaError f.name (missingColumns cols) cols
      ∧ chartsFromLoad parse d (processFiles (pre ++ f :: rest)) = [] := by
  intro parse d pre rest f cols rows hpre hf hmiss
  have hne : ¬ (pre ++ f :: rest).isEmpty = true := by
    rw [List.isEmpty_iff]
    intro h
    rcases List.append_eq_nil.1 h with ⟨-, h2⟩
    exact List.cons_ne_nil _ _ h2
  have hmain : processFiles (pre ++ f :: rest)
      = .schemaError f.name (missingColumns cols) cols := by
    unfold processFiles
    rw [if_neg hne]
    obtain ⟨acc', hacc⟩ := loadLoop_prefix_skip pre (f :: rest) [] hpre
    rw [hacc]
    cases f with
    | mk name content =>
      cases hf
      simp only [loadLoop]
      rw [if_neg hmiss]
  refine ⟨hmain, ?_⟩
  rw [hmain]
  rfl

/-- C3 witness: a second file missing the `License Plate` column aborts
processing with a schema error naming it, and zero charts result. -/
theorem schema_error_short_circuits_witness :
    processFiles
        [⟨pstr "anpr_data_1.xlsx", .ok REQUIRED_COLUMNS []⟩,
         ⟨pstr "anpr_data_2.xlsx", .ok [pstr "Device Name", pstr "Passing Time"] []⟩]
      = .schemaError (pstr "anpr_data_2.xlsx") [pstr "License Plate"]
          [pstr "Device Name", pstr "Passing Time"]
    ∧ chartsFromLoad (fun _ => none) none
        (processFiles
          [⟨pstr "anpr_data_1.xlsx", .ok REQUIRED_COLUMNS []⟩,
           ⟨pstr "anpr_data_2.xlsx", .ok [pstr "Device Name", pstr "Passing Time"] []⟩])
      = [] := by
  have h := schema_error_short_circuits (fun _ => none) none
    [⟨pstr "anpr_data_1.xlsx", .ok REQUIRED_COLUMNS []⟩] []
    ⟨pstr "anpr_data_2.xlsx", .ok [pstr "Device Name", pstr "Passing Time"] []⟩
    [pstr "Device Name", pstr "Passing Time"] []
    (by decide) rfl (by decide)
  have hm : missingColumns [pstr "Device Name", pstr "Passing Time"]
      = [pstr "License Plate"] := by decide
  rw [hm] at h
  exact h

theorem loadLoop_eq_noneReadable :
    ∀ (files : List GFile) (acc : List (List RawRecord)),
      loadLoop files acc = .noneReadable ↔
        (acc = [] ∧ ∀ f ∈ files, f.content = .failed) := by
  intro files
  induction files with
  | nil =>
    intro acc
    cases acc with
    | nil => simp [loadLoop]
    | cons a l => simp [loadLoop]
  | cons f rest ih =>
    intro acc
    cases f with
    | mk name content =>
      cases content with
      | failed =>
        have hstep : loadLoop ((⟨name, .failed⟩ : GFile) :: rest) acc
            = loadLoop rest acc := rfl
        rw [hstep, ih]
        simp
      | unreadable =>
        have hstep : loadLoop ((⟨name, .unreadable⟩ : GFile) :: rest) acc
            = .genericError := rfl
        rw [hstep]
        constructor
        · intro h; cases h
        · rintro ⟨-, hall⟩
          have := hall _ (List.mem_cons_self _ rest)
          cases this
      | ok cols rows =>
        by_cases hmiss : missingColumns cols = []
        · have hstep : loadLoop ((⟨name, .ok cols rows⟩ : GFile) :: rest) acc
              = loadLoop rest (acc ++ [rows]) := by
            simp only [loadLoop]
            rw [if_pos hmiss]
          rw [hstep, ih]
          constructor
          · rintro ⟨h, -⟩
            exact absurd h (by simp)
          · rintro ⟨-, hall⟩
            have := hall _ (List.mem_cons_self _ rest)
            cases this
        · have hstep : loadLoop ((⟨name, .ok cols rows⟩ : GFile) :: rest) acc
              = .schemaError name (missingColumns cols) cols := by
            simp only [loadLoop]
            rw [if_neg hmiss]
          rw [hstep]
          constructor
          · intro h; cases h
          · rintro ⟨-, hall⟩
            have := hall _ (List.mem_cons_self _ rest)
            cases this

/-- C10: a selected file whose download fails is silently skipped and the
report is built from the rest; the "files were found, but none could be
read" outcome occurs exactly when every selected file fails to download;
and a file that downloads but cannot be parsed aborts the whole request
with the generic error. -/
theorem download_failure_handling :
    (∀ (f : GFile) (rest : List GFile) (acc : List (List RawRecord)),
        f.content = .failed → loadLoop (f :: rest) acc = loadLoop rest acc)
    ∧ (∀ files : List GFile,
        processFiles files = .noneReadable ↔
          files ≠ [] ∧ ∀ f ∈ files, f.content = .failed)
    ∧ (∀ (pre rest : List GFile) (f : GFile),
        (∀ g ∈ pre, passesOrSkippedB g = true) → f.content = .unreadable →
        processFiles (pre ++ f :: rest) = .genericError) := by
  refine ⟨?_, ?_, ?_⟩
  · intro f rest acc hf
    cases f with
    | mk name content => cases hf; rfl
  · intro files
    cases files with
    | nil =>
      constructor
      · intro h; cases h
      · rintro ⟨h, -⟩; exact absurd rfl h
    | cons f rest =>
      have hstep : processFiles (f :: rest) = loadLoop (f :: rest) [] := by
        unfold processFiles
        rw [if_neg (by simp)]
      rw [hstep, loadLoop_eq_noneReadable]
      simp
  · intro pre rest f hpre hf
    have hne : ¬ (pre ++ f :: rest).isEmpty = true := by
      rw [List.isEmpty_iff]
      intro h
      rcases List.append_eq_nil.1 h with ⟨-, h2⟩
      exact List.cons_ne_nil _ _ h2
    unfold processFiles
    rw [if_neg hne]
    obtain ⟨acc', hacc⟩ := loadLoop_prefix_skip pre (f :: rest) [] hpre
    rw [hacc]
    cases f with
    | mk name content => cases hf; rfl

/-- C10 witness: a failed download is skipped; a single failed download
yields the none-readable outcome; an unreadable second file yields the
generic error. -/
theorem download_failure_handling_witness :
    loadLoop [⟨pstr "anpr_data_1.xlsx", .failed⟩,
              ⟨pstr "anpr_data_2.xlsx", .ok REQUIRED_COLUMNS []⟩] []
        = loadLoop [⟨pstr "anpr_data_2.xlsx", .ok REQUIRED_COLUMNS []⟩] []
    ∧ processFiles [⟨pstr "anpr_data_1.xlsx", .failed⟩] = .noneReadable
    ∧ processFiles [⟨pstr "anpr_data_1.xlsx", .failed⟩,
                    ⟨pstr "anpr_data_2.xlsx", .unreadable⟩] = .genericError :=
  ⟨download_failure_handling.1 _ _ _ rfl,
   (download_failure_handling.2.1 _).mpr ⟨by decide, by decide⟩,
   download_failure_handling.2.2 [⟨pstr "anpr_data_1.xlsx", .failed⟩] [] _ (by decide) rfl⟩

-- Volume aggregation (C8).

/-- C8: the volume series for a route's start checkpoint counts distinct
plates per 15-minute floor bucket over all detections at that checkpoint:
records at other checkpoints (in particular end-checkpoint arrivals, or
their absence) never change a bucket's count, and a repeated detection of a
record already present in the bucket does not increase it. -/
theorem volume_counts_distinct_start_plates :
    (∀ (df extra : List Record) (cp : Str) (b : Int),
        (∀ r ∈ extra, r.dev ≠ cp) →
        volumeCount (df ++ extra) cp b = volumeCount df cp b)
    ∧ (∀ (df : List Record) (r : Record) (cp : Str) (b : Int),
        r ∈ df → r.dev = cp → floor15 r.time = b →
        volumeCount (r :: df) cp b = volumeCount df cp b) := by
  constructor
  · intro df extra cp b hextra
    have hsplit : rowsAt (df ++ extra) cp = rowsAt df cp ++ rowsAt extra cp :=
      List.filter_append _ _
    have hnil : rowsAt extra cp = [] := by
      unfold rowsAt
      rw [List.filter_eq_nil_iff]
      intro r hr
      simpa using hextra r hr
    unfold volumeCount
    rw [hsplit, hnil, List.append_nil]
  · intro df r cp b hmem hdev hfloor
    have h1 : rowsAt (r :: df) cp = r :: rowsAt df cp :=
      List.filter_cons_of_pos (decide_eq_true hdev)
    have h2 : inBucket (r :: rowsAt df cp) b = r :: inBucket (rowsAt df cp) b :=
      List.filter_cons_of_pos (decide_eq_true hfloor)
    have hrmem : r.plate ∈ (inBucket (rowsAt df cp) b).map (fun s => s.plate) := by
      refine List.mem_map.2 ⟨r, ?_, rfl⟩
      exact List.mem_filter.2
        ⟨List.mem_filter.2 ⟨hmem, decide_eq_true hdev⟩, decide_eq_true hfloor⟩
    unfold volumeCount
    rw [h1, h2, List.map_cons, List.toFinset_cons,
      Finset.insert_eq_self.2 (List.mem_toFinset.2 hrmem)]

/-- C8 witness: three distinct plates at the start checkpoint inside one
15-minute window give a bucket count of 3; an end-checkpoint arrival leaves
the count unchanged, even though no journey completes on the route. -/
theorem volume_counts_distinct_start_plates_witness :
    volumeCount
        ([⟨pstr "SEITHUNGANALLUR", pstr "P1", 36000⟩,
          ⟨pstr "SEITHUNGANALLUR", pstr "P2", 36300⟩,
          ⟨pstr "SEITHUNGANALLUR", pstr "P3", 36600⟩]
         ++ [⟨pstr "ARUMUGANERI", pstr "P1", 36000⟩])
        (pstr "SEITHUNGANALLUR") 36000
      = volumeCount
          [⟨pstr "SEITHUNGANALLUR", pstr "P1", 36000⟩,
           ⟨pstr "SEITHUNGANALLUR", pstr "P2", 36300⟩,
           ⟨pstr "SEITHUNGANALLUR", pstr "P3", 36600⟩]
          (pstr "SEITHUNGANALLUR") 36000
    ∧ volumeCount
        [⟨pstr "SEITHUNGANALLUR", pstr "P1", 36000⟩,
         ⟨pstr "SEITHUNGANALLUR", pstr "P2", 36300⟩,
         ⟨pstr "SEITHUNGANALLUR", pstr "P3", 36600⟩]
        (pstr "SEITHUNGANALLUR") 36000 = 3
    ∧ journeysForRoute
        ([⟨pstr "SEITHUNGANALLUR", pstr "P1", 36000⟩,
          ⟨pstr "SEITHUNGANALLUR", pstr "P2", 36300⟩,
          ⟨pstr "SEITHUNGANALLUR", pstr "P3", 36600⟩]
         ++ [⟨pstr "ARUMUGANERI", pstr "P1", 36000⟩])
        (pstr "SEITHUNGANALLUR", pstr "ARUMUGANERI", 50) = [] :=
  ⟨volume_counts_distinct_start_plates.1 _ _ _ _ (by decide), by decide, by decide⟩

-- Date filtering (C9).

/-- C9: with a requested date, the normalized record set is filtered row by
row to the rows whose passing-time date equals that date, and a record on a
different calendar date contributes to no route's journeys and to no volume
count. -/
theorem date_filter_excludes_other_days :
    (∀ (d : Int) (recs : List Record) (x : Record),
        x ∈ applyDateFilter (some d) recs ↔ x ∈ recs ∧ dateOf x.time = d)
    ∧ (∀ (d : Int) (r : Record) (recs : List Record),
        dateOf r.time ≠ d →
        applyDateFilter (some d) (r :: recs) = applyDateFilter (some d) recs)
    ∧ (∀ (d : Int) (r : Record) (recs : List Record) (rt : Str × Str × Nat),
        dateOf r.time ≠ d →
        journeysForRoute (applyDateFilter (some d) (r :: recs)) rt
          = journeysForRoute (applyDateFilter (some d) recs) rt)
    ∧ (∀ (d : Int) (r : Record) (recs : List Record) (cp : Str) (b : Int),
        dateOf r.time ≠ d →
        volumeCount (applyDateFilter (some d) (r :: recs)) cp b
          = volumeCount (applyDateFilter (some d) recs) cp b) := by
  have hdrop : ∀ (d : Int) (r : Record) (recs : List Record),
      dateOf r.time ≠ d →
      applyDateFilter (some d) (r :: recs) = applyDateFilter (some d) recs := by
    intro d r recs hne
    unfold applyDateFilter
    exact List.filter_cons_of_neg (by simpa using hne)
  refine ⟨?_, hdrop, ?_, ?_⟩
  · intro d recs x
    unfold applyDateFilter
    rw [List.mem_filter]
    simp
  · intro d r recs rt hne
    rw [hdrop d r recs hne]
  · intro d r recs cp b hne
    rw [hdrop d r recs hne]

/-- C9 witness: a record whose passing time falls on day 1 is dropped by the
day-0 filter, leaving journeys and volume counts unchanged. -/
theorem date_filter_excludes_other_days_witness :
    applyDateFilter (some 0)
        [⟨pstr "SEITHUNGANALLUR", pstr "P9", 100000⟩,
         ⟨pstr "SEITHUNGANALLUR", pstr "P1", 36000⟩]
      = applyDateFilter (some 0) [⟨pstr "SEITHUNGANALLUR", pstr "P1", 36000⟩]
    ∧ journeysForRoute
        (applyDateFilter (some 0)
          [⟨pstr "SEITHUNGANALLUR", pstr "P9", 100000⟩,
           ⟨pstr "SEITHUNGANALLUR", pstr "P1", 36000⟩])
        (pstr "SEITHUNGANALLUR", pstr "ARUMUGANERI", 50)
      = journeysForRoute
          (applyDateFilter (some 0) [⟨pstr "SEITHUNGANALLUR", pstr "P1", 36000⟩])
          (pstr "SEITHUNGANALLUR", pstr "ARUMUGANERI", 50)
    ∧ volumeCount
        (applyDateFilter (some 0)
          [⟨pstr "SEITHUNGANALLUR", pstr "P9", 100000⟩,
           ⟨pstr "SEITHUNGANALLUR", pstr "P1", 36000⟩])
        (pstr "SEITHUNGANALLUR") 36000
      = volumeCount
          (applyDateFilter (some 0) [⟨pstr "SEITHUNGANALLUR", pstr "P1", 36000⟩])
          (pstr "SEITHUNGANALLUR") 36000 :=
  ⟨date_filter_excludes_other_days.2.1 _ _ _ (by decide),
   date_filter_excludes_other_days.2.2.1 _ _ _ _ (by decide),
   date_filter_excludes_other_days.2.2.2 _ _ _ _ _ (by decide)⟩

-- Numeric-suffix selection policy (C5).

theorem foldl_pickBetter_mem :
    ∀ (l : List Str) (a : Str), List.foldl pickBetter a l = a ∨ List.foldl pickBetter a l ∈ l := by
  intro l
  induction l with
  | nil => intro a; exact Or.inl rfl
  | cons g l ih =>
    intro a
    have hstep : List.foldl pickBetter a (g :: l) = List.foldl pickBetter (pickBetter a g) l := rfl
    rw [hstep]
    rcases ih (pickBetter a g) with h | h
    · rw [h]
      unfold pickBetter
      by_cases hlt : fileRank a < fileRank g
      · rw [if_pos hlt]
        exact Or.inr (List.mem_cons_self g l)
      · rw [if_neg hlt]
        exact Or.inl rfl
    · exact Or.inr (List.mem_cons_of_mem g h)

theorem fileRank_le_pickBetter_left (a g : Str) : fileRank a ≤ fileRank (pickBetter a g) := by
  unfold pickBetter
  by_cases hlt : fileRank a < fileRank g
  · rw [if_pos hlt]
    exact le_of_lt hlt
  · rw [if_neg hlt]

theorem fileRank_le_pickBetter_right (a g : Str) : fileRank g ≤ fileRank (pickBetter a g) := by
  unfold pickBetter
  by_cases hlt : fileRank a < fileRank g
  · rw [if_pos hlt]
  · rw [if_neg hlt]
    exact le_of_not_lt hlt

theorem foldl_pickBetter_ge_init :
    ∀ (l : List Str) (a : Str), fileRank a ≤ fileRank (List.foldl pickBetter a l) := by
  intro l
  induction l with
  | nil => intro a; exact le_refl _
  | cons g l ih =>
    intro a
    exact le_trans (fileRank_le_pickBetter_left a g) (ih (pickBetter a g))

theorem foldl_pickBetter_ge_mem :
    ∀ (l : List Str) (a x : Str), x ∈ l → fileRank x ≤ fileRank (List.foldl pickBetter a l) := by
  intro l
  induction l with
  | nil => intro a x h; cases h
  | cons g l ih =>
    intro a x h
    rcases List.mem_cons.1 h with h' | h'
    · subst h'
      exact le_trans (fileRank_le_pickBetter_right a x) (foldl_pickBetter_ge_init l _)
    · exact ih (pickBetter a g) x h'

/-- C5 (modelled from the spec, the numeric-suffix selection variant being
absent from `src/`): whenever the policy selects a file, that file is among
the candidates, its trailing number parses to some `n`, and `n` dominates
the rank of every candidate (numeric comparison); and when no candidate has
a parseable trailing number, the day is reported as having no eligible
file. -/
theorem numeric_suffix_selection :
    (∀ (files : List Str) (f : Str),
        selectHighest files = some f →
        f ∈ files ∧ ∃ n, parseTrailingNat f = some n ∧ ∀ g ∈ files, fileRank g ≤ (n : Int))
    ∧ (∀ files : List Str,
        (∀ g ∈ files, parseTrailingNat g = none) → selectHighest files = none) := by
  constructor
  · intro files f hsel
    cases files with
    | nil => cases hsel
    | cons a rest =>
      have hsel' : (if (parseTrailingNat (List.foldl pickBetter a rest)).isSome
          then some (List.foldl pickBetter a rest) else none) = some f := hsel
      by_cases hs : (parseTrailingNat (List.foldl pickBetter a rest)).isSome
      · rw [if_pos hs] at hsel'
        injection hsel' with hf
        obtain ⟨n, hn⟩ := Option.isSome_iff_exists.1 hs
        have hmem : f ∈ a :: rest := by
          rcases foldl_pickBetter_mem rest a with h | h
          · rw [← hf, h]; exact List.mem_cons_self a rest
          · rw [← hf]; exact List.mem_cons_of_mem a h
        have hnf : parseTrailingNat f = some n := by
          rw [← hf]; exact hn
        have hrank : fileRank f = (n : Int) := by
          unfold fileRank
          rw [hnf]
        refine ⟨hmem, n, hnf, ?_⟩
        intro g hg
        rw [← hrank, ← hf]
        rcases List.mem_cons.1 hg with h' | h'
        · rw [h']
          exact foldl_pickBetter_ge_init rest a
        · exact foldl_pickBetter_ge_mem rest a g h'
      · rw [if_neg hs] at hsel'
        cases hsel'
  · intro files hall
    cases files with
    | nil => rfl
    | cons a rest =>
      have hbest : parseTrailingNat (List.foldl pickBetter a rest) = none := by
        rcases foldl_pickBetter_mem rest a with h | h
        · rw [h]
          exact hall a (List.mem_cons_self a rest)
        · exact hall _ (List.mem_cons_of_mem a h)
      show (if (parseTrailingNat (List.foldl pickBetter a rest)).isSome
          then some (List.foldl pickBetter a rest) else none) = none
      rw [hbest]
      rfl

/-- C5 witness: among `anpr_data_3.xlsx`, `anpr_data_10.xlsx`,
`anpr_data_2.xlsx` the policy selects `anpr_data_10.xlsx` (numeric, not
lexicographic, comparison), and a lone name with no trailing number leaves
the day with no eligible file. -/
theorem numeric_suffix_selection_witness :
    (pstr "anpr_data_10.xlsx"
        ∈ [pstr "anpr_data_3.xlsx", pstr "anpr_data_10.xlsx", pstr "anpr_data_2.xlsx"]
      ∧ ∃ n, parseTrailingNat (pstr "anpr_data_10.xlsx") = some n
          ∧ ∀ g ∈ [pstr "anpr_data_3.xlsx", pstr "anpr_data_10.xlsx", pstr "anpr_data_2.xlsx"],
              fileRank g ≤ (n : Int))
    ∧ selectHighest [pstr "anpr_data.xlsx"] = none :=
  ⟨numeric_suffix_selection.1 _ _ (by decide),
   numeric_suffix_selection.2 _ (by decide)⟩

-- String lemmas for the normalization-idempotence analysis (C7).

theorem dropWhile_head_false {α} {p : α → Bool} :
    ∀ {l t : List α} {c : α}, List.dropWhile p l = c :: t → p c = false := by
  intro l
  induction l with
  | nil =>
    intro t c h
    simp [List.dropWhile_nil] at h
  | cons a l ih =>
    intro t c h
    rw [List.dropWhile_cons] at h
    by_cases hp : p a = true
    · rw [if_pos hp] at h
      exact ih h
    · rw [if_neg hp] at h
      injection h with h1 h2
      rw [← h1]
      cases hpa : p a
      · rfl
      · exact absurd hpa hp

theorem dropWhile_idem {α} (p : α → Bool) :
    ∀ l : List α, List.dropWhile p (List.dropWhile p l) = List.dropWhile p l := by
  intro l
  induction l with
  | nil => rfl
  | cons a l ih =>
    rw [List.dropWhile_cons]
    by_cases hp : p a = true
    · rw [if_pos hp]
      exact ih
    · rw [if_neg hp, List.dropWhile_cons, if_neg hp]

theorem strip_head_not_space :
    ∀ {s : Str} {c : Nat} {t : Str}, strip s = c :: t → isSpaceB c = false := by
  intro s c t h
  unfold strip at h
  have h2 := congrArg List.reverse h
  rw [List.reverse_reverse, List.reverse_cons] at h2
  have hsplit := List.takeWhile_append_dropWhile
    (p := isSpaceB) (l := (List.dropWhile isSpaceB s).reverse)
  rw [h2] at hsplit
  have hu := congrArg List.reverse hsplit
  rw [List.reverse_append, List.reverse_append, List.reverse_reverse,
    List.reverse_reverse] at hu
  have hu2 := hu.symm
  simp only [List.reverse_cons, List.reverse_nil, List.nil_append, List.cons_append,
    List.append_assoc] at hu2
  exact dropWhile_head_false hu2

theorem dropWhile_strip (s : Str) :
    List.dropWhile isSpaceB (strip s) = strip s := by
  cases hc : strip s with
  | nil => rfl
  | cons c t =>
    have hfalse := strip_head_not_space hc
    rw [List.dropWhile_cons, if_neg (by simp [hfalse])]

theorem dropWhile_strip_reverse (s : Str) :
    List.dropWhile isSpaceB ((strip s).reverse) = (strip s).reverse := by
  unfold strip
  rw [List.reverse_reverse, dropWhile_idem]

theorem strip_idem (s : Str) : strip (strip s) = strip s := by
  show (List.dropWhile isSpaceB ((List.dropWhile isSpaceB (strip s)).reverse)).reverse = strip s
  rw [dropWhile_strip, dropWhile_strip_reverse, List.reverse_reverse]

theorem mem_strip {s : Str} {x : Nat} (h : x ∈ strip s) : x ∈ s := by
  unfold strip at h
  rw [List.mem_reverse] at h
  have h1 : x ∈ (List.dropWhile isSpaceB s).reverse :=
    (List.dropWhile_sublist _).subset h
  rw [List.mem_reverse] at h1
  exact (List.dropWhile_sublist _).subset h1

theorem mem_removeAllAux {pat : Str} :
    ∀ {s : Str} {k : Nat} {x : Nat}, x ∈ removeAllAux pat k s → x ∈ s := by
  intro s
  induction s with
  | nil =>
    intro k x h
    simp [removeAllAux] at h
  | cons c rest ih =>
    intro k x h
    cases k with
    | succ k' =>
      have h' : x ∈ removeAllAux pat k' rest := h
      exact List.mem_cons_of_mem c (ih h')
    | zero =>
      by_cases hp : pat.isPrefixOf (c :: rest)
      · have h' : x ∈ removeAllAux pat (pat.length - 1) rest := by
          rw [removeAllAux, if_pos hp] at h
          exact h
        exact List.mem_cons_of_mem c (ih h')
      · rw [removeAllAux, if_neg hp] at h
        rcases List.mem_cons.1 h with h' | h'
        · exact h' ▸ List.mem_cons_self c rest
        · exact List.mem_cons_of_mem c (ih h')

theorem removeAll_no_occurrence {pat : Str} :
    ∀ {t : Str}, containsSub pat t = false → removeAll pat t = t := by
  intro t
  induction t with
  | nil => intro _; rfl
  | cons c rest ih =>
    intro h
    simp only [containsSub, Bool.or_eq_false_iff] at h
    show removeAllAux pat 0 (c :: rest) = c :: rest
    rw [removeAllAux, if_neg (by simp [h.1])]
    have htail := ih h.2
    rw [removeAll] at htail
    rw [htail]

theorem pyUpper_idem (c : Nat) : pyUpper (pyUpper c) = pyUpper c := by
  by_cases h : 97 ≤ c ∧ c ≤ 122
  · have h1 : pyUpper c = c - 32 := if_pos h
    rw [h1]
    show (if 97 ≤ c - 32 ∧ c - 32 ≤ 122 then c - 32 - 32 else c - 32) = c - 32
    rw [if_neg (by omega)]
  · have h1 : pyUpper c = c := if_neg h
    rw [h1]
    exact h1

theorem upperStr_mem_fix {s : Str} {x : Nat} (h : x ∈ upperStr s) : pyUpper x = x := by
  rcases List.mem_map.1 h with ⟨c, -, rfl⟩
  exact pyUpper_idem c

theorem upperStr_fix : ∀ {t : Str}, (∀ x ∈ t, pyUpper x = x) → upperStr t = t := by
  intro t
  induction t with
  | nil => intro _; rfl
  | cons c t ih =>
    intro h
    show pyUpper c :: upperStr t = c :: t
    rw [h c (List.mem_cons_self c t), ih (fun x hx => h x (List.mem_cons_of_mem c hx))]

theorem pdToDatetime_idem (parse : Str → Option Int) (c : TimeCell) :
    pdToDatetime parse (pdToDatetime parse c) = pdToDatetime parse c := by
  cases c with
  | str s => cases hp : parse s <;> simp [pdToDatetime, hp]
  | dt t => rfl
  | null => rfl

theorem normalizePlate_idem (s : Str) :
    normalizePlate (normalizePlate s) = normalizePlate s := by
  unfold normalizePlate
  have hfix : upperStr (strip (upperStr s)) = strip (upperStr s) :=
    upperStr_fix (fun x hx => upperStr_mem_fix (mem_strip hx))
  rw [hfix, strip_idem]

theorem normalizeName_idem (s : Str)
    (h : containsSub SUFFIX_TOKEN (normalizeName s) = false) :
    normalizeName (normalizeName s) = normalizeName s := by
  have hfixU : upperStr (normalizeName s) = normalizeName s :=
    upperStr_fix (fun x hx =>
      upperStr_mem_fix (mem_removeAllAux (mem_strip hx)))
  show strip (removeAll SUFFIX_TOKEN (upperStr (normalizeName s))) = normalizeName s
  rw [hfixU, removeAll_no_occurrence h]
  show strip (strip (removeAll SUFFIX_TOKEN (upperStr s))) = _
  rw [strip_idem]
  rfl

/-- C7 counterexample: record normalization is NOT idempotent as stated.
For the checkpoint name `"X C.PO C.POSTST"`, one normalization deletes the
single `" C.POST"` occurrence and yields `"X C.POST"`; a second
normalization deletes the newly created occurrence and yields `"X"`. -/
theorem normalization_not_idempotent :
    normalizeRow (fun _ => none)
        (normalizeRow (fun _ => none)
          ⟨some (pstr "X C.PO C.POSTST"), some (pstr "ABC123"), .dt 0⟩)
      ≠ normalizeRow (fun _ => none)
          ⟨some (pstr "X C.PO C.POSTST"), some (pstr "ABC123"), .dt 0⟩ := by
  decide

/-- C7 (amended): record normalization is idempotent for every record whose
once-normalized checkpoint name no longer contains the `" C.POST"` token
(deleting all occurrences can splice together a new occurrence, and only
then does a second normalization differ); the plate and timestamp parts are
unconditionally idempotent. -/
theorem normalization_idempotent_when_suffix_free :
    ∀ (parse : Str → Option Int) (r : RawRecord),
      devSuffixFree (normalizeRow parse r) = true →
      normalizeRow parse (normalizeRow parse r) = normalizeRow parse r := by
  intro parse r h
  obtain ⟨dev, plate, time⟩ := r
  have hplate : ∀ (o : Option Str),
      (o.map normalizePlate).map normalizePlate = o.map normalizePlate := by
    intro o
    cases o with
    | none => rfl
    | some q => simp [normalizePlate_idem]
  have htime := pdToDatetime_idem parse time
  cases dev with
  | none => simp [normalizeRow, hplate, htime]
  | some s =>
    have hs : containsSub SUFFIX_TOKEN (normalizeName s) = false := by
      simpa [devSuffixFree, normalizeRow] using h
    simp [normalizeRow, hplate, htime, normalizeName_idem s hs]

/-- C7 (amended) witness: a checkpoint name carrying one site-survey suffix
normalizes to a token-free name, and normalization is idempotent there. -/
theorem normalization_idempotent_when_suffix_free_witness :
    devSuffixFree
        (normalizeRow (fun _ => none)
          ⟨some (pstr "seithunganallur c.post"), some (pstr " abc123 "), .null⟩) = true
    ∧ normalizeRow (fun _ => none)
        (normalizeRow (fun _ => none)
          ⟨some (pstr "seithunganallur c.post"), some (pstr " abc123 "), .null⟩)
      = normalizeRow (fun _ => none)
          ⟨some (pstr "seithunganallur c.post"), some (pstr " abc123 "), .null⟩ :=
  ⟨by decide,
   normalization_idempotent_when_suffix_free (fun _ => none) _ (by decide)⟩
